import Mathlib

/-!
Verification of the word-search solvers in `word_search_solver.py` (the
indexed implementation, class `WordSearchSolver`) and
`simple_word_search_solver.py` (the naive quintuple-loop implementation).

Grids are lists of rows, each row a list of characters, exactly as the
Python code treats the list of lines loaded from the grid file.  The
puzzle-internal coordinates are `(y, x)` pairs (row, column); reported
start coordinates are `(x, y)` pairs (column, row).  Running coordinates
are modelled as `Int` because the Python step arithmetic may leave the
grid (the code relies on dictionary membership, not bounds checks).

Words are lists of characters (`word.py` strings indexed character by
character).  Result maps are insertion-ordered association lists, the
model of Python 3 dictionaries; the direction keys are the direction
code strings of the `directions` tables (both files contain the same
eight-entry table, in the same order).
-/

/-- The eight directions, in the insertion order of the `directions`
dictionary of `word_search_solver.py` (the `DIRECTIONS` dictionary of
`simple_word_search_solver.py` is identical). -/
inductive Direction where
  | LR
  | RL
  | U
  | D
  | DUL
  | DUR
  | DDL
  | DDR
deriving DecidableEq

/-- The `(dy, dx)` step vector of a direction, from the `directions`
tables of both source files. -/
def Direction.delta : Direction → Int × Int
  | .LR => (0, 1)
  | .RL => (0, -1)
  | .U => (-1, 0)
  | .D => (1, 0)
  | .DUL => (-1, -1)
  | .DUR => (-1, 1)
  | .DDL => (1, -1)
  | .DDR => (1, 1)

/-- Row step of a direction. -/
def Direction.dy (d : Direction) : Int := d.delta.1

/-- Column step of a direction. -/
def Direction.dx (d : Direction) : Int := d.delta.2

/-- The direction code string used as key in the result dictionaries. -/
def Direction.name : Direction → String
  | .LR => "LR"
  | .RL => "RL"
  | .U => "U"
  | .D => "D"
  | .DUL => "DUL"
  | .DUR => "DUR"
  | .DDL => "DDL"
  | .DDR => "DDR"

/-- All eight directions in dictionary iteration (= insertion) order. -/
def allDirections : List Direction :=
  [.LR, .RL, .U, .D, .DUL, .DUR, .DDL, .DDR]

/-- Lookup in an insertion-ordered association list (Python `d[k]` read,
as `Option`). -/
def assocFind {α β : Type} [DecidableEq α] : List (α × β) → α → Option β
  | [], _ => none
  | (k, v) :: rest, a => if a = k then some v else assocFind rest a

/-- Replace the value stored at a key, keeping its position (Python
`d[k] = v` on a key that is present). Missing keys leave the list
unchanged. -/
def assocUpdate {α β : Type} [DecidableEq α] : List (α × β) → α → β → List (α × β)
  | [], _, _ => []
  | (k, v) :: rest, a, b => if a = k then (k, b) :: rest else (k, v) :: assocUpdate rest a b

/-- The `self.coordinates` defaultdict of `WordSearchSolver`: characters
mapped to the list of `(y, x)` coordinates at which they occur. -/
abbrev CoordDict := List (Char × List (Int × Int))

/-- Reading a `collections.defaultdict(list)` as a total function: a
missing key reads as the empty list. -/
def dictWithDefault (d : CoordDict) (c : Char) : List (Int × Int) :=
  (assocFind d c).getD []

namespace WordSearchSolver

/-- One `self.coordinates[key].append(coords)` step of
`build_dictionary_of_coordinates`: append the coordinate to the list at
`c`, materialising the entry (at the end, defaultdict style) when the
key is new. -/
def dictAppend (d : CoordDict) (c : Char) (p : Int × Int) : CoordDict :=
  match assocFind d c with
  | some v => assocUpdate d c (v ++ [p])
  | none => d ++ [(c, [p])]

/-- The inner loop of `build_dictionary_of_coordinates` over one row:
`x` is the running column index. -/
def buildRow (y : Int) : CoordDict → List Char → Int → CoordDict
  | d, [], _ => d
  | d, ch :: rest, x => buildRow y (dictAppend d ch (y, x)) rest (x + 1)

/-- The outer loop of `build_dictionary_of_coordinates` over the rows:
`y` is the running row index. -/
def buildGrid : CoordDict → List (List Char) → Int → CoordDict
  | d, [], _ => d
  | d, row :: rest, y => buildGrid (buildRow y d row 0) rest (y + 1)

/-- `WordSearchSolver.build_dictionary_of_coordinates`: enumerate the
grid in row-major order and file the coordinate pair of every cell under its
character. -/
def build_dictionary_of_coordinates (grid : List (List Char)) : CoordDict :=
  buildGrid [] grid 0

/-- The built grid index read as a total function (defaultdict reads of
missing characters give `[]`). -/
def coordsOf (grid : List (List Char)) : Char → List (Int × Int) :=
  fun c => dictWithDefault (build_dictionary_of_coordinates grid) c

/-- The per-candidate letter loop of `check_for_word_in_direction`: walk
the word from the running coordinate `(y, x)`, skipping spaces without
stepping, otherwise requiring the running coordinate to be filed under
the uppercased letter before stepping by `(dy, dx)`. -/
def wordMatch (coords : Char → List (Int × Int)) (dy dx : Int) :
    List Char → Int → Int → Bool
  | [], _, _ => true
  | ch :: rest, y, x =>
      if ch = ' ' then wordMatch coords dy dx rest y x
      else if (y, x) ∈ coords ch.toUpper then wordMatch coords dy dx rest (y + dy) (x + dx)
      else false

/-- The candidate loop body of `check_for_word_in_direction`: keep, in
candidate order, the `(x, y)` swap of every first-letter occurrence from
which the whole word matches. -/
def checkD (coords : Char → List (Int × Int)) (word : List Char) (d : Direction) :
    List (Int × Int) :=
  match word with
  | [] => []
  | c :: _ =>
      ((coords c).filter fun p => wordMatch coords d.dy d.dx word p.1 p.2).map Prod.swap

/-- `WordSearchSolver.check_for_word_in_direction`.  The candidate start
coordinates are the index entry for the raw first character of the word
(`word[0]`, not uppercased); `word[0]` raises `IndexError` on the empty
word, modelled as `none`. -/
def check_for_word_in_direction (coords : Char → List (Int × Int))
    (word : List Char) (d : Direction) : Option (List (Int × Int)) :=
  match word with
  | [] => none
  | _ :: _ => some (checkD coords word d)

/-- A word-to-inner-dictionary result map (`found_words` / `results`),
with the inner dictionaries keyed by direction code string. -/
abbrev ResultMap := List (List Char × List (String × List (Int × Int)))

instance : DecidableEq (List (String × List (Int × Int))) := instDecidableEqList

instance : DecidableEq ResultMap := instDecidableEqList

/-- `found_words[word][direction] = results` on the
`collections.defaultdict(dict)` of `solve_puzzle`: a missing word key is
materialised (at the end) with a fresh inner dictionary. -/
def setFound (m : ResultMap) (w : List Char) (dn : String)
    (rs : List (Int × Int)) : ResultMap :=
  match assocFind m w with
  | none => m ++ [(w, [(dn, rs)])]
  | some inner =>
      match assocFind inner dn with
      | none => assocUpdate m w (inner ++ [(dn, rs)])
      | some _ => assocUpdate m w (assocUpdate inner dn rs)

/-- The direction loop of `solve_puzzle` for one word: run
`check_for_word_in_direction` for each direction and record non-empty
result lists. -/
def solveDirs (coords : Char → List (Int × Int)) (w : List Char) :
    ResultMap → List Direction → Option ResultMap
  | m, [] => some m
  | m, d :: ds =>
      match check_for_word_in_direction coords w d with
      | none => none
      | some rs => solveDirs coords w (if rs = [] then m else setFound m w d.name rs) ds

/-- The word loop of `solve_puzzle`. -/
def solveWords (coords : Char → List (Int × Int)) :
    ResultMap → List (List Char) → Option ResultMap
  | m, [] => some m
  | m, w :: ws =>
      match solveDirs coords w m allDirections with
      | none => none
      | some m2 => solveWords coords m2 ws

/-- `WordSearchSolver.solve_puzzle` with `no_output=True`: build the
coordinate dictionary from the grid, then fill the `found_words`
defaultdict word by word, direction by direction.  `none` models an
uncaught exception (an `IndexError` from `word[0]` on an empty word). -/
def solve_puzzle (keys : List (List Char)) (grid : List (List Char)) : Option ResultMap :=
  solveWords (coordsOf grid) [] keys

/-- Row-major occurrence list of a character in one row, starting at
column offset `x0`: the functional reading of what `buildRow` appends. -/
def rowOccs (c : Char) (y : Int) : List Char → Int → List (Int × Int)
  | [], _ => []
  | ch :: rest, x =>
      if ch = c then (y, x) :: rowOccs c y rest (x + 1) else rowOccs c y rest (x + 1)

/-- Row-major occurrence list of a character in the grid rows starting
at row offset `y0`. -/
def gridOccs (c : Char) : List (List Char) → Int → List (Int × Int)
  | [], _ => []
  | row :: rest, y => rowOccs c y row 0 ++ gridOccs c rest (y + 1)

/-- Read a result map at a word key and then a direction key. -/
def entryAt (m : ResultMap) (w : List Char) (dn : String) : Option (List (Int × Int)) :=
  (assocFind m w).bind fun inner => assocFind inner dn

/-- The entry of a result map at `(w, d)` holds exactly the value
`check_for_word_in_direction` computes for them. -/
def GoodEntry (coords : Char → List (Int × Int)) (m : ResultMap)
    (w : List Char) (d : Direction) : Prop :=
  entryAt m w d.name = some (checkD coords w d)

/-- The state of `self.coordinates` after the `defaultdict` read
`self.coordinates[c]`: a missing key is materialised at the end with an
empty list.  Returns the value read together with the new state. -/
def dictGet (d : CoordDict) (c : Char) : List (Int × Int) × CoordDict :=
  match assocFind d c with
  | some v => (v, d)
  | none => ([], d ++ [(c, [])])

/-- The letter loop of `check_for_word_in_direction` with the
defaultdict state threaded through: each non-space letter performs the
read `self.coordinates[letter.upper()]` (which can materialise an empty
entry) before the membership test.  After a failed letter the loop body
is skipped (`if letters_match is True`), so no further reads happen. -/
def wordMatchS (dy dx : Int) : CoordDict → List Char → Int → Int → Bool × CoordDict
  | dict, [], _, _ => (true, dict)
  | dict, ch :: rest, y, x =>
      if ch = ' ' then wordMatchS dy dx dict rest y x
      else
        if (y, x) ∈ (dictGet dict ch.toUpper).1 then
          wordMatchS dy dx (dictGet dict ch.toUpper).2 rest (y + dy) (x + dx)
        else (false, (dictGet dict ch.toUpper).2)

/-- The candidate loop of `check_for_word_in_direction` with the
defaultdict state threaded through, keeping the `(x, y)` swaps of the
surviving candidates in order. -/
def candLoopS (dy dx : Int) (word : List Char) :
    CoordDict → List (Int × Int) → List (Int × Int) × CoordDict
  | dict, [] => ([], dict)
  | dict, p :: rest =>
      (if (wordMatchS dy dx dict word p.1 p.2).1 then
        (p.2, p.1) :: (candLoopS dy dx word (wordMatchS dy dx dict word p.1 p.2).2 rest).1
      else (candLoopS dy dx word (wordMatchS dy dx dict word p.1 p.2).2 rest).1,
        (candLoopS dy dx word (wordMatchS dy dx dict word p.1 p.2).2 rest).2)

/-- `check_for_word_in_direction` acting on the `self.coordinates`
defaultdict itself (the state-passing reading of the method): the read
`self.coordinates[word[0]]` happens first, then the candidate loop.  On
the empty word, `word[0]` raises before any read, leaving the state
unchanged. -/
def checkWithDict (dict : CoordDict) (word : List Char) (dir : Direction) :
    Option (List (Int × Int)) × CoordDict :=
  match word with
  | [] => (none, dict)
  | c :: _ =>
      (some (candLoopS dir.dy dir.dx word (dictGet dict c).2 (dictGet dict c).1).1,
        (candLoopS dir.dy dir.dx word (dictGet dict c).2 (dictGet dict c).1).2)

/-- How one defaultdict state can relate to a later one under reads
only: every existing entry is preserved exactly, and every entry of the
later state either existed before or is a materialised empty entry. -/
def DictExtends (d d' : CoordDict) : Prop :=
  ∀ (c : Char) (v : List (Int × Int)),
    (assocFind d c = some v → assocFind d' c = some v) ∧
    (assocFind d' c = some v → assocFind d c = some v ∨ v = [])

end WordSearchSolver

namespace SimpleWordSearchSolver

open WordSearchSolver (ResultMap)

/-- Python `graph[y][x]` on natural indices, as an `Option` (out-of-range
access models the `IndexError`). -/
def gridCell (graph : List (List Char)) (y x : Nat) : Option Char :=
  (graph.get? y).bind fun row => row.get? x

/-- The letter loop of `solve_puzzle` in `simple_word_search_solver.py`
for a fixed start cell and direction.  It mirrors the Python loop
exactly: the out-of-bounds test comes first (also at space characters),
`word_is_not_here` (`failed` here) is only ever set, never reset, and
the loop keeps scanning after a failure. `none` models an `IndexError`
from `graph[this_step_y][this_step_x]` (possible only on ragged grids,
since the bounds test uses the width of the first row). -/
def scanWord (graph : List (List Char)) (h w : Nat) (dy dx : Int) :
    List Char → Int → Int → Bool → Option Bool
  | [], _, _, failed => some (!failed)
  | ch :: rest, y, x, failed =>
      if (h : Int) ≤ y ∨ y < 0 ∨ (w : Int) ≤ x ∨ x < 0 then
        scanWord graph h w dy dx rest y x true
      else if ch = ' ' then scanWord graph h w dy dx rest y x failed
      else
        match gridCell graph y.toNat x.toNat with
        | none => none
        | some g =>
            if g = ch then scanWord graph h w dy dx rest (y + dy) (x + dx) failed
            else scanWord graph h w dy dx rest y x true

/-- The `try: results[w][d].append(c) except KeyError: results[w] = {d: [c]}`
recording step of the naive solver.  Note the `except` branch replaces
the whole inner dictionary when only the direction key is missing. -/
def addResult (m : ResultMap) (w : List Char) (dn : String) (c : Int × Int) : ResultMap :=
  match assocFind m w with
  | none => m ++ [(w, [(dn, [c])])]
  | some inner =>
      match assocFind inner dn with
      | none => assocUpdate m w [(dn, [c])]
      | some lst => assocUpdate m w (assocUpdate inner dn (lst ++ [c]))

/-- The direction loop of the naive solver at one start cell. -/
def dirLoop (graph : List (List Char)) (h w : Nat) (word wordU : List Char)
    (y x : Nat) : ResultMap → List Direction → Option ResultMap
  | m, [] => some m
  | m, d :: ds =>
      match scanWord graph h w d.dy d.dx wordU (y : Int) (x : Int) false with
      | none => none
      | some true => dirLoop graph h w word wordU y x (addResult m word d.name ((x : Int), (y : Int))) ds
      | some false => dirLoop graph h w word wordU y x m ds

/-- The column loop of the naive solver. -/
def colLoop (graph : List (List Char)) (h w : Nat) (word wordU : List Char)
    (y : Nat) : ResultMap → List Nat → Option ResultMap
  | m, [] => some m
  | m, x :: xs =>
      match dirLoop graph h w word wordU y x m allDirections with
      | none => none
      | some m2 => colLoop graph h w word wordU y m2 xs

/-- The row loop of the naive solver. -/
def rowLoop (graph : List (List Char)) (h w : Nat) (word wordU : List Char) :
    ResultMap → List Nat → Option ResultMap
  | m, [] => some m
  | m, y :: ys =>
      match colLoop graph h w word wordU y m (List.range w) with
      | none => none
      | some m2 => rowLoop graph h w word wordU m2 ys

/-- The word loop of the naive solver, including the final
`if each_word not in results: results[each_word] = {}`. -/
def wordLoop (graph : List (List Char)) (h w : Nat) :
    ResultMap → List (List Char) → Option ResultMap
  | m, [] => some m
  | m, word :: ws =>
      match rowLoop graph h w word (word.map Char.toUpper) m (List.range h) with
      | none => none
      | some m2 =>
          wordLoop graph h w
            (if (assocFind m2 word).isSome then m2 else m2 ++ [(word, [])]) ws

/-- `solve_puzzle` of `simple_word_search_solver.py`:
`graph_height = len(graph)`, `graph_width = len(graph[0])` (an empty
graph raises `IndexError`, modelled as `none`), then the five nested
loops. -/
def solve_puzzle (words graph : List (List Char)) : Option ResultMap :=
  match graph with
  | [] => none
  | g0 :: _ => wordLoop graph graph.length g0.length [] words

end SimpleWordSearchSolver

/-- Python `grid[y][x]` read through the `(row, column)`
convention, total via `Option`: `none` outside the grid (including
negative coordinates). -/
def cellAt (grid : List (List Char)) (y x : Int) : Option Char :=
  if 0 ≤ y ∧ 0 ≤ x then (grid.get? y.toNat).bind fun row => row.get? x.toNat else none

/-- The reading discipline of the claims (C2, C6): starting at `(y, x)`,
read the word character by character, skipping each space without
advancing, and otherwise requiring the grid cell at the running
coordinate to hold the uppercased character before stepping by
`(dy, dx)`. -/
def spellsAtB (grid : List (List Char)) (dy dx : Int) : List Char → Int → Int → Bool
  | [], _, _ => true
  | ch :: rest, y, x =>
      if ch = ' ' then spellsAtB grid dy dx rest y x
      else if cellAt grid y x = some ch.toUpper then spellsAtB grid dy dx rest (y + dy) (x + dx)
      else false

/-- Rectangular non-empty grid: at least one row, and all rows as long
as the first (the naive solver takes `len(graph[0])` as the width). -/
def isRect (grid : List (List Char)) : Bool :=
  match grid with
  | [] => false
  | g0 :: rest => rest.all fun r => r.length == g0.length

section CharFacts

theorem char_toNat_ofNat_valid (m : Nat) (h : m.isValidChar) : (Char.ofNat m).toNat = m := by
  unfold Char.ofNat
  rw [dif_pos h]
  rfl

theorem char_toUpper_idem (c : Char) : c.toUpper.toUpper = c.toUpper := by
  unfold Char.toUpper
  by_cases h : c.toNat ≥ 97 ∧ c.toNat ≤ 122
  · rw [if_pos h]
    have hv : (c.toNat - 32).isValidChar := Or.inl (by omega)
    have ht : (Char.ofNat (c.toNat - 32)).toNat = c.toNat - 32 := char_toNat_ofNat_valid _ hv
    rw [if_neg (by omega)]
  · rw [if_neg h, if_neg h]

theorem char_toUpper_eq_space_iff (c : Char) : c.toUpper = ' ' ↔ c = ' ' := by
  constructor
  · intro h
    have ht := congrArg Char.toNat h
    unfold Char.toUpper at ht
    by_cases hc : c.toNat ≥ 97 ∧ c.toNat ≤ 122
    · rw [if_pos hc] at ht
      have hv : (c.toNat - 32).isValidChar := Or.inl (by omega)
      rw [char_toNat_ofNat_valid _ hv] at ht
      have hsp : (' ').toNat = 32 := rfl
      omega
    · rw [if_neg hc] at ht
      exact Char.eq_of_val_eq (UInt32.ext ht)
  · intro h
    rw [h]
    rfl

end CharFacts

section AssocFacts

variable {α β : Type} [DecidableEq α]

theorem assocFind_append_of_some {l1 : List (α × β)} {a : α} {v : β} (l2 : List (α × β))
    (h : assocFind l1 a = some v) : assocFind (l1 ++ l2) a = some v := by
  induction l1 with
  | nil => simp [assocFind] at h
  | cons kv rest ih =>
      obtain ⟨k, w⟩ := kv
      simp only [assocFind, List.cons_append] at h ⊢
      by_cases hk : a = k
      · simpa [hk] using h
      · rw [if_neg hk] at h ⊢
        exact ih h

theorem assocFind_append_of_none {l1 : List (α × β)} {a : α} (l2 : List (α × β))
    (h : assocFind l1 a = none) : assocFind (l1 ++ l2) a = assocFind l2 a := by
  induction l1 with
  | nil => simp [assocFind]
  | cons kv rest ih =>
      obtain ⟨k, w⟩ := kv
      simp only [assocFind, List.cons_append] at h ⊢
      by_cases hk : a = k
      · simp [hk] at h
      · rw [if_neg hk] at h ⊢
        exact ih h

theorem assocFind_update_self {l : List (α × β)} {a : α} {v : β} (b : β)
    (h : assocFind l a = some v) : assocFind (assocUpdate l a b) a = some b := by
  induction l with
  | nil => simp [assocFind] at h
  | cons kv rest ih =>
      obtain ⟨k, w⟩ := kv
      simp only [assocFind, assocUpdate] at h ⊢
      by_cases hk : a = k
      · simp [assocFind, hk]
      · rw [if_neg hk] at h ⊢
        simp only [assocFind, if_neg hk]
        exact ih h

theorem assocUpdate_of_none {l : List (α × β)} {a : α} (b : β)
    (h : assocFind l a = none) : assocUpdate l a b = l := by
  induction l with
  | nil => rfl
  | cons kv rest ih =>
      obtain ⟨k, w⟩ := kv
      simp only [assocFind, assocUpdate] at h ⊢
      by_cases hk : a = k
      · simp [hk] at h
      · rw [if_neg hk] at h ⊢
        rw [ih h]

theorem assocFind_update_ne {l : List (α × β)} {a a' : α} (b : β)
    (h : a' ≠ a) : assocFind (assocUpdate l a b) a' = assocFind l a' := by
  induction l with
  | nil => rfl
  | cons kv rest ih =>
      obtain ⟨k, w⟩ := kv
      simp only [assocFind, assocUpdate]
      by_cases hk : a = k
      · subst hk
        simp [assocFind, if_neg h]
      · rw [if_neg hk]
        simp only [assocFind]
        by_cases hk' : a' = k
        · simp [hk']
        · rw [if_neg hk', if_neg hk']
          exact ih

end AssocFacts

namespace WordSearchSolver

theorem dictWithDefault_dictAppend (d : CoordDict) (c : Char) (p : Int × Int) (c' : Char) :
    dictWithDefault (dictAppend d c p) c' =
      if c' = c then dictWithDefault d c' ++ [p] else dictWithDefault d c' := by
  unfold dictAppend
  by_cases hc : c' = c
  · subst hc
    cases hf : assocFind d c' with
    | none =>
        simp only [hf, dictWithDefault]
        rw [assocFind_append_of_none _ hf]
        simp [assocFind, hf]
    | some v =>
        simp only [hf, dictWithDefault]
        rw [assocFind_update_self _ hf]
        simp [hf]
  · rw [if_neg hc]
    cases hf : assocFind d c with
    | none =>
        simp only [dictWithDefault]
        cases hf' : assocFind d c' with
        | none =>
            rw [assocFind_append_of_none _ hf']
            simp [assocFind, hc]
        | some v =>
            rw [assocFind_append_of_some _ hf']
    | some v =>
        simp only [dictWithDefault]
        rw [assocFind_update_ne _ hc]

theorem dictWithDefault_buildRow (row : List Char) :
    ∀ (d : CoordDict) (y x0 : Int) (c : Char),
      dictWithDefault (buildRow y d row x0) c = dictWithDefault d c ++ rowOccs c y row x0 := by
  induction row with
  | nil => intro d y x0 c; simp [buildRow, rowOccs]
  | cons ch rest ih =>
      intro d y x0 c
      simp only [buildRow, rowOccs]
      rw [ih]
      rw [dictWithDefault_dictAppend]
      by_cases hc : ch = c
      · subst hc
        rw [if_pos rfl, if_pos rfl, List.append_assoc]
        rfl
      · rw [if_neg hc, if_neg (fun h => hc h.symm)]

theorem dictWithDefault_buildGrid (grid : List (List Char)) :
    ∀ (d : CoordDict) (y0 : Int) (c : Char),
      dictWithDefault (buildGrid d grid y0) c = dictWithDefault d c ++ gridOccs c grid y0 := by
  induction grid with
  | nil => intro d y0 c; simp [buildGrid, gridOccs]
  | cons row rest ih =>
      intro d y0 c
      simp only [buildGrid, gridOccs]
      rw [ih, dictWithDefault_buildRow, List.append_assoc]

theorem coordsOf_eq_gridOccs (grid : List (List Char)) (c : Char) :
    coordsOf grid c = gridOccs c grid 0 := by
  unfold coordsOf build_dictionary_of_coordinates
  rw [dictWithDefault_buildGrid]
  rfl

theorem mem_rowOccs (c : Char) (y : Int) (row : List Char) :
    ∀ (x0 : Int) (p : Int × Int),
      p ∈ rowOccs c y row x0 ↔ p.1 = y ∧ ∃ i : Nat, p.2 = x0 + i ∧ row.get? i = some c := by
  induction row with
  | nil =>
      intro x0 p
      simp [rowOccs]
  | cons ch rest ih =>
      intro x0 p
      simp only [rowOccs]
      constructor
      · intro hp
        have hstep : p ∈ rowOccs c y rest (x0 + 1) →
            p.1 = y ∧ ∃ i : Nat, p.2 = x0 + i ∧ (ch :: rest).get? i = some c := by
          intro hmem
          obtain ⟨h1, i, h2, h3⟩ := (ih (x0 + 1) p).mp hmem
          exact ⟨h1, i + 1, by push_cast at h2 ⊢; omega, by simpa [List.get?_cons_succ] using h3⟩
        by_cases hc : ch = c
        · rw [if_pos hc] at hp
          rcases List.mem_cons.mp hp with hp | hp
          · subst hp
            exact ⟨rfl, 0, by simp, by simp [List.get?_cons_zero, hc]⟩
          · exact hstep hp
        · rw [if_neg hc] at hp
          exact hstep hp
      · rintro ⟨h1, i, h2, h3⟩
        cases i with
        | zero =>
            rw [List.get?_cons_zero] at h3
            have hcc : ch = c := Option.some.inj h3
            rw [if_pos hcc]
            have hp : p = (y, x0) := by
              obtain ⟨p1, p2⟩ := p
              simp only at h1 h2
              simp only [Prod.mk.injEq]
              exact ⟨h1, by push_cast at h2; omega⟩
            rw [hp]
            exact List.mem_cons_self _ _
        | succ j =>
            rw [List.get?_cons_succ] at h3
            have hmem : p ∈ rowOccs c y rest (x0 + 1) :=
              (ih (x0 + 1) p).mpr ⟨h1, j, by push_cast at h2 ⊢; omega, h3⟩
            by_cases hc : ch = c
            · rw [if_pos hc]
              exact List.mem_cons_of_mem _ hmem
            · rw [if_neg hc]
              exact hmem

theorem mem_gridOccs (c : Char) (grid : List (List Char)) :
    ∀ (y0 : Int) (p : Int × Int),
      p ∈ gridOccs c grid y0 ↔
        ∃ j : Nat, p.1 = y0 + j ∧
          ∃ row, grid.get? j = some row ∧ ∃ i : Nat, p.2 = (i : Int) ∧ row.get? i = some c := by
  induction grid with
  | nil =>
      intro y0 p
      simp [gridOccs]
  | cons row rest ih =>
      intro y0 p
      simp only [gridOccs, List.mem_append]
      constructor
      · intro hp
        rcases hp with hp | hp
        · obtain ⟨h1, i, h2, h3⟩ := (mem_rowOccs c y0 row 0 p).mp hp
          exact ⟨0, by omega, row, by simp, i, by omega, h3⟩
        · obtain ⟨j, h1, r, h2, hrest⟩ := (ih (y0 + 1) p).mp hp
          exact ⟨j + 1, by push_cast at h1 ⊢; omega, r, by simpa using h2, hrest⟩
      · rintro ⟨j, h1, r, h2, i, h3, h4⟩
        cases j with
        | zero =>
            left
            rw [List.get?_cons_zero] at h2
            cases Option.some.inj h2
            exact (mem_rowOccs c y0 row 0 p).mpr ⟨by omega, i, by omega, h4⟩
        | succ k =>
            right
            refine (ih (y0 + 1) p).mpr
              ⟨k, by push_cast at h1 ⊢; omega, r, by simpa [List.get?_cons_succ] using h2, i, h3, h4⟩

/-- Membership in the built index entry for `c` is exactly that the grid
holds `c` at that in-bounds cell. -/
theorem mem_coordsOf (grid : List (List Char)) (c : Char) (y x : Int) :
    (y, x) ∈ coordsOf grid c ↔ cellAt grid y x = some c := by
  rw [coordsOf_eq_gridOccs]
  rw [mem_gridOccs]
  unfold cellAt
  constructor
  · rintro ⟨j, h1, row, h2, i, h3, h4⟩
    simp only at h1 h3
    have hy : (0 : Int) ≤ y := by omega
    have hx : (0 : Int) ≤ x := by omega
    rw [if_pos ⟨hy, hx⟩]
    have hyj : y.toNat = j := by omega
    have hxi : x.toNat = i := by omega
    rw [hyj, hxi, h2]
    simpa using h4
  · intro h
    by_cases hpos : (0 : Int) ≤ y ∧ (0 : Int) ≤ x
    · rw [if_pos hpos] at h
      cases hrow : grid.get? y.toNat with
      | none => rw [hrow] at h; simp at h
      | some row =>
          rw [hrow] at h
          simp only [Option.some_bind] at h
          exact ⟨y.toNat, by omega, row, hrow, x.toNat, by omega, h⟩
    · rw [if_neg hpos] at h
      simp at h

/-- The indexed walk over the built index computes exactly the
reading discipline of the claims. -/
theorem wordMatch_eq_spellsAtB (grid : List (List Char)) (dy dx : Int) :
    ∀ (w : List Char) (y x : Int),
      wordMatch (coordsOf grid) dy dx w y x = spellsAtB grid dy dx w y x := by
  intro w
  induction w with
  | nil => intro y x; rfl
  | cons ch rest ih =>
      intro y x
      simp only [wordMatch, spellsAtB]
      by_cases hsp : ch = ' '
      · rw [if_pos hsp, if_pos hsp, ih]
      · rw [if_neg hsp, if_neg hsp]
        by_cases hm : cellAt grid y x = some ch.toUpper
        · rw [if_pos ((mem_coordsOf grid ch.toUpper y x).mpr hm), if_pos hm, ih]
        · rw [if_neg (fun hmem => hm ((mem_coordsOf grid ch.toUpper y x).mp hmem)), if_neg hm]

theorem direction_name_inj (d d' : Direction) (h : d.name = d'.name) : d = d' := by
  cases d <;> cases d' <;> first
    | rfl
    | exact absurd h (by decide)

theorem mem_allDirections (d : Direction) : d ∈ allDirections := by
  cases d <;> decide

theorem setFound_eq_new (m : ResultMap) (w : List Char) (dn : String)
    (rs : List (Int × Int)) (h : assocFind m w = none) :
    setFound m w dn rs = m ++ [(w, [(dn, rs)])] := by
  unfold setFound
  rw [h]

theorem setFound_eq_append (m : ResultMap) (w : List Char) (dn : String)
    (rs : List (Int × Int)) (inner : List (String × List (Int × Int)))
    (hf : assocFind m w = some inner) (hd : assocFind inner dn = none) :
    setFound m w dn rs = assocUpdate m w (inner ++ [(dn, rs)]) := by
  unfold setFound
  rw [hf]
  dsimp only
  rw [hd]

theorem setFound_eq_update (m : ResultMap) (w : List Char) (dn : String)
    (rs : List (Int × Int)) (inner : List (String × List (Int × Int)))
    (v : List (Int × Int)) (hf : assocFind m w = some inner)
    (hd : assocFind inner dn = some v) :
    setFound m w dn rs = assocUpdate m w (assocUpdate inner dn rs) := by
  unfold setFound
  rw [hf]
  dsimp only
  rw [hd]

theorem entryAt_setFound_self (m : ResultMap) (w : List Char) (dn : String)
    (rs : List (Int × Int)) : entryAt (setFound m w dn rs) w dn = some rs := by
  cases hf : assocFind m w with
  | none =>
      rw [setFound_eq_new _ _ _ _ hf]
      unfold entryAt
      rw [assocFind_append_of_none _ hf]
      simp [assocFind]
  | some inner =>
      cases hd : assocFind inner dn with
      | none =>
          rw [setFound_eq_append _ _ _ _ _ hf hd]
          unfold entryAt
          rw [assocFind_update_self _ hf]
          simp only [Option.some_bind]
          rw [assocFind_append_of_none _ hd]
          simp [assocFind]
      | some v =>
          rw [setFound_eq_update _ _ _ _ _ _ hf hd]
          unfold entryAt
          rw [assocFind_update_self _ hf]
          simp only [Option.some_bind]
          exact assocFind_update_self _ hd

theorem entryAt_setFound_ne (m : ResultMap) (w : List Char) (dn : String)
    (rs : List (Int × Int)) (w' : List Char) (dn' : String)
    (h : ¬(w' = w ∧ dn' = dn)) :
    entryAt (setFound m w dn rs) w' dn' = entryAt m w' dn' := by
  by_cases hw : w' = w
  · subst hw
    have hdn : dn' ≠ dn := fun hd => h ⟨rfl, hd⟩
    cases hf : assocFind m w' with
    | none =>
        rw [setFound_eq_new _ _ _ _ hf]
        unfold entryAt
        rw [assocFind_append_of_none _ hf, hf]
        simp [assocFind, hdn]
    | some inner =>
        cases hd : assocFind inner dn with
        | none =>
            rw [setFound_eq_append _ _ _ _ _ hf hd]
            unfold entryAt
            rw [assocFind_update_self _ hf, hf]
            simp only [Option.some_bind]
            cases hd' : assocFind inner dn' with
            | none =>
                rw [assocFind_append_of_none _ hd']
                simp [assocFind, hdn]
            | some v =>
                rw [assocFind_append_of_some _ hd']
        | some v =>
            rw [setFound_eq_update _ _ _ _ _ _ hf hd]
            unfold entryAt
            rw [assocFind_update_self _ hf, hf]
            simp only [Option.some_bind]
            exact assocFind_update_ne _ hdn
  · cases hf : assocFind m w with
    | none =>
        rw [setFound_eq_new _ _ _ _ hf]
        unfold entryAt
        cases hf' : assocFind m w' with
        | none =>
            rw [assocFind_append_of_none _ hf']
            simp [assocFind, hw]
        | some inner' =>
            rw [assocFind_append_of_some _ hf']
    | some inner =>
        cases hd : assocFind inner dn with
        | none =>
            rw [setFound_eq_append _ _ _ _ _ hf hd]
            unfold entryAt
            rw [assocFind_update_ne _ hw]
        | some v =>
            rw [setFound_eq_update _ _ _ _ _ _ hf hd]
            unfold entryAt
            rw [assocFind_update_ne _ hw]

theorem solveDirs_isSome (coords : Char → List (Int × Int)) (c : Char) (rest : List Char) :
    ∀ (ds : List Direction) (m : ResultMap),
      ∃ m', solveDirs coords (c :: rest) m ds = some m' := by
  intro ds
  induction ds with
  | nil => intro m; exact ⟨m, rfl⟩
  | cons d2 ds2 ih =>
      intro m
      obtain ⟨m', hm'⟩ := ih (if checkD coords (c :: rest) d2 = [] then m
        else setFound m (c :: rest) d2.name (checkD coords (c :: rest) d2))
      exact ⟨m', hm'⟩

theorem solveDirs_preserves (coords : Char → List (Int × Int)) (w2 : List Char)
    (hw2 : w2 ≠ []) :
    ∀ (ds : List Direction) (m m' : ResultMap) (w : List Char) (d : Direction),
      solveDirs coords w2 m ds = some m' → GoodEntry coords m w d →
        GoodEntry coords m' w d := by
  obtain ⟨c, rest, rfl⟩ := List.exists_cons_of_ne_nil hw2
  intro ds
  induction ds with
  | nil =>
      intro m m' w d hsolve hgood
      cases hsolve
      exact hgood
  | cons d2 ds2 ih =>
      intro m m' w d hsolve hgood
      simp only [solveDirs, check_for_word_in_direction] at hsolve
      refine ih _ m' w d hsolve ?_
      by_cases hz : checkD coords (c :: rest) d2 = []
      · rw [if_pos hz]
        exact hgood
      · rw [if_neg hz]
        by_cases hsame : w = c :: rest ∧ d.name = d2.name
        · obtain ⟨hww, hdd⟩ := hsame
          have hd : d = d2 := direction_name_inj d d2 hdd
          subst hww hd
          unfold GoodEntry
          rw [entryAt_setFound_self]
        · unfold GoodEntry
          rw [entryAt_setFound_ne _ _ _ _ _ _ hsame]
          exact hgood

theorem solveDirs_establishes (coords : Char → List (Int × Int)) (c : Char)
    (rest : List Char) (d : Direction)
    (hne : checkD coords (c :: rest) d ≠ []) :
    ∀ (ds : List Direction) (m m' : ResultMap),
      d ∈ ds → solveDirs coords (c :: rest) m ds = some m' →
        GoodEntry coords m' (c :: rest) d := by
  intro ds
  induction ds with
  | nil =>
      intro m m' hd
      simp at hd
  | cons d2 ds2 ih =>
      intro m m' hd hsolve
      simp only [solveDirs, check_for_word_in_direction] at hsolve
      rcases List.mem_cons.mp hd with hd | hd
      · subst hd
        rw [if_neg hne] at hsolve
        refine solveDirs_preserves coords (c :: rest) (by simp) ds2 _ m' (c :: rest) d hsolve ?_
        unfold GoodEntry
        rw [entryAt_setFound_self]
      · exact ih _ m' hd hsolve

theorem solveWords_isSome (coords : Char → List (Int × Int)) :
    ∀ (ws : List (List Char)) (m : ResultMap), (∀ w ∈ ws, w ≠ []) →
      ∃ m', solveWords coords m ws = some m' := by
  intro ws
  induction ws with
  | nil => intro m _; exact ⟨m, rfl⟩
  | cons w2 ws2 ih =>
      intro m hall
      obtain ⟨c, rest, rfl⟩ :=
        List.exists_cons_of_ne_nil (hall w2 (List.mem_cons_self _ _))
      obtain ⟨m2, hm2⟩ := solveDirs_isSome coords c rest allDirections m
      obtain ⟨m', hm'⟩ := ih m2 (fun w hw => hall w (List.mem_cons_of_mem _ hw))
      refine ⟨m', ?_⟩
      simp only [solveWords, hm2]
      exact hm'

theorem solveWords_preserves (coords : Char → List (Int × Int)) :
    ∀ (ws : List (List Char)) (m m' : ResultMap) (w : List Char) (d : Direction),
      (∀ w' ∈ ws, w' ≠ []) → solveWords coords m ws = some m' →
        GoodEntry coords m w d → GoodEntry coords m' w d := by
  intro ws
  induction ws with
  | nil =>
      intro m m' w d _ hsolve hgood
      cases hsolve
      exact hgood
  | cons w2 ws2 ih =>
      intro m m' w d hall hsolve hgood
      simp only [solveWords] at hsolve
      cases hm2 : solveDirs coords w2 m allDirections with
      | none => rw [hm2] at hsolve; cases hsolve
      | some m2 =>
          rw [hm2] at hsolve
          have hw2 : w2 ≠ [] := hall w2 (List.mem_cons_self _ _)
          refine ih m2 m' w d (fun w' hw' => hall w' (List.mem_cons_of_mem _ hw')) hsolve ?_
          exact solveDirs_preserves coords w2 hw2 allDirections m m2 w d hm2 hgood

theorem solveWords_establishes (coords : Char → List (Int × Int)) :
    ∀ (ws : List (List Char)) (m m' : ResultMap) (w : List Char) (d : Direction),
      (∀ w' ∈ ws, w' ≠ []) → w ∈ ws → checkD coords w d ≠ [] →
        solveWords coords m ws = some m' → GoodEntry coords m' w d := by
  intro ws
  induction ws with
  | nil =>
      intro m m' w d _ hw
      simp at hw
  | cons w2 ws2 ih =>
      intro m m' w d hall hw hne hsolve
      simp only [solveWords] at hsolve
      cases hm2 : solveDirs coords w2 m allDirections with
      | none => rw [hm2] at hsolve; cases hsolve
      | some m2 =>
          rw [hm2] at hsolve
          have htail : ∀ w' ∈ ws2, w' ≠ [] := fun w' hw' => hall w' (List.mem_cons_of_mem _ hw')
          rcases List.mem_cons.mp hw with hww | hww

          · subst hww
            obtain ⟨c, rest, rfl⟩ :=
              List.exists_cons_of_ne_nil (hall w (List.mem_cons_self _ _))
            have hgood := solveDirs_establishes coords c rest d hne allDirections m m2
              (mem_allDirections d) hm2
            exact solveWords_preserves coords ws2 m2 m' (c :: rest) d htail hsolve hgood
          · exact ih m2 m' w d htail hww hne hsolve

/-- Top-level characterization used by the completeness claims: a word
of the key list with a non-empty per-direction result list ends up in
the solved result map under exactly that value. -/
theorem solve_puzzle_found (grid : List (List Char)) (keys : List (List Char))
    (w : List Char) (d : Direction) (hall : ∀ w' ∈ keys, w' ≠ []) (hw : w ∈ keys)
    (hne : checkD (coordsOf grid) w d ≠ []) :
    ∃ m, solve_puzzle keys grid = some m ∧
      entryAt m w d.name = some (checkD (coordsOf grid) w d) := by
  obtain ⟨m, hm⟩ := solveWords_isSome (coordsOf grid) keys [] hall
  exact ⟨m, hm, solveWords_establishes (coordsOf grid) keys [] m w d hall hw hne hm⟩

/-- A cell from which the reading discipline of the claims spells the word,
whose first character is a non-space character fixed by uppercasing, is
kept (in `(x, y)` order) by the candidate loop of
`check_for_word_in_direction`. -/
theorem mem_checkD_of_spells (grid : List (List Char)) (c : Char) (rest : List Char)
    (d : Direction) (y x : Int) (hc : c ≠ ' ') (hup : c.toUpper = c)
    (hsp : spellsAtB grid d.dy d.dx (c :: rest) y x = true) :
    (x, y) ∈ checkD (coordsOf grid) (c :: rest) d := by
  have hcell : cellAt grid y x = some c.toUpper := by
    by_contra hcell
    simp only [spellsAtB, if_neg hc, if_neg hcell] at hsp
    exact absurd hsp (by decide)
  have hcand : (y, x) ∈ coordsOf grid c := by
    rw [mem_coordsOf]
    rw [hup] at hcell
    exact hcell
  have hmatch : wordMatch (coordsOf grid) d.dy d.dx (c :: rest) y x = true := by
    rw [wordMatch_eq_spellsAtB]
    exact hsp
  unfold checkD
  refine List.mem_map.mpr ⟨(y, x), List.mem_filter.mpr ⟨hcand, hmatch⟩, rfl⟩

theorem wordMatch_map_toUpper (coords : Char → List (Int × Int)) (dy dx : Int) :
    ∀ (w : List Char) (y x : Int),
      wordMatch coords dy dx (w.map Char.toUpper) y x = wordMatch coords dy dx w y x := by
  intro w
  induction w with
  | nil => intro y x; rfl
  | cons ch rest ih =>
      intro y x
      simp only [List.map_cons, wordMatch]
      by_cases hsp : ch = ' '
      · rw [if_pos ((char_toUpper_eq_space_iff ch).mpr hsp), if_pos hsp, ih]
      · have hsp2 : ch.toUpper ≠ ' ' := fun h => hsp ((char_toUpper_eq_space_iff ch).mp h)
        rw [if_neg hsp2, if_neg hsp, char_toUpper_idem]
        by_cases hm : (y, x) ∈ coords ch.toUpper
        · rw [if_pos hm, if_pos hm, ih]
        · rw [if_neg hm, if_neg hm]

theorem checkD_map_toUpper (coords : Char → List (Int × Int)) (c : Char)
    (rest : List Char) (d : Direction) (hup : c.toUpper = c) :
    checkD coords ((c :: rest).map Char.toUpper) d = checkD coords (c :: rest) d := by
  show ((coords c.toUpper).filter fun p =>
      wordMatch coords d.dy d.dx ((c :: rest).map Char.toUpper) p.1 p.2).map Prod.swap =
    ((coords c).filter fun p => wordMatch coords d.dy d.dx (c :: rest) p.1 p.2).map Prod.swap
  rw [hup]
  have hpred : (fun p : Int × Int =>
      wordMatch coords d.dy d.dx ((c :: rest).map Char.toUpper) p.1 p.2) =
      fun p : Int × Int => wordMatch coords d.dy d.dx (c :: rest) p.1 p.2 :=
    funext fun p => wordMatch_map_toUpper coords d.dy d.dx (c :: rest) p.1 p.2
  rw [hpred]

theorem wordMatch_filter_space (coords : Char → List (Int × Int)) (dy dx : Int) :
    ∀ (w : List Char) (y x : Int),
      wordMatch coords dy dx (w.filter fun ch => decide (ch ≠ ' ')) y x =
        wordMatch coords dy dx w y x := by
  intro w
  induction w with
  | nil => intro y x; rfl
  | cons ch rest ih =>
      intro y x
      by_cases hsp : ch = ' '
      · subst hsp
        show wordMatch coords dy dx (rest.filter fun ch => decide (ch ≠ ' ')) y x =
          wordMatch coords dy dx (' ' :: rest) y x
        rw [ih]
        rfl
      · have hkeep : (ch :: rest).filter (fun ch => decide (ch ≠ ' ')) =
            ch :: rest.filter (fun ch => decide (ch ≠ ' ')) :=
          List.filter_cons_of_pos (decide_eq_true hsp)
        rw [hkeep]
        simp only [wordMatch]
        rw [if_neg hsp, if_neg hsp]
        by_cases hm : (y, x) ∈ coords ch.toUpper
        · rw [if_pos hm, if_pos hm, ih]
        · rw [if_neg hm, if_neg hm]

end WordSearchSolver

namespace WordSearchSolver

theorem dictExtends_refl (d : CoordDict) : DictExtends d d := by
  intro c v
  exact ⟨fun h => h, fun h => Or.inl h⟩

theorem dictExtends_trans {d1 d2 d3 : CoordDict}
    (h12 : DictExtends d1 d2) (h23 : DictExtends d2 d3) : DictExtends d1 d3 := by
  intro c v
  constructor
  · intro h
    exact (h23 c v).1 ((h12 c v).1 h)
  · intro h
    rcases (h23 c v).2 h with h2 | h2
    · exact (h12 c v).2 h2
    · exact Or.inr h2

theorem dictGet_extends (d : CoordDict) (c : Char) : DictExtends d (dictGet d c).2 := by
  unfold dictGet
  cases hf : assocFind d c with
  | some v => exact dictExtends_refl d
  | none =>
      intro c' v'
      constructor
      · intro h
        exact assocFind_append_of_some _ h
      · intro h
        cases hf' : assocFind d c' with
        | some v2 =>
            rw [assocFind_append_of_some _ hf'] at h
            exact Or.inl h
        | none =>
            rw [assocFind_append_of_none _ hf'] at h
            by_cases hc : c' = c
            · simp only [assocFind, if_pos hc] at h
              exact Or.inr (Option.some.inj h).symm
            · simp only [assocFind, if_neg hc] at h
              exact Option.noConfusion h

theorem wordMatchS_extends (dy dx : Int) :
    ∀ (letters : List Char) (dict : CoordDict) (y x : Int),
      DictExtends dict (wordMatchS dy dx dict letters y x).2 := by
  intro letters
  induction letters with
  | nil => intro dict y x; exact dictExtends_refl dict
  | cons ch rest ih =>
      intro dict y x
      simp only [wordMatchS]
      by_cases hsp : ch = ' '
      · rw [if_pos hsp]
        exact ih dict y x
      · rw [if_neg hsp]
        by_cases hm : (y, x) ∈ (dictGet dict ch.toUpper).1
        · rw [if_pos hm]
          exact dictExtends_trans (dictGet_extends dict ch.toUpper) (ih _ _ _)
        · rw [if_neg hm]
          exact dictGet_extends dict ch.toUpper

theorem candLoopS_extends (dy dx : Int) (word : List Char) :
    ∀ (cands : List (Int × Int)) (dict : CoordDict),
      DictExtends dict (candLoopS dy dx word dict cands).2 := by
  intro cands
  induction cands with
  | nil => intro dict; exact dictExtends_refl dict
  | cons p rest ih =>
      intro dict
      simp only [candLoopS]
      exact dictExtends_trans (wordMatchS_extends dy dx word dict p.1 p.2) (ih _)

theorem checkWithDict_extends (dict : CoordDict) (word : List Char) (dir : Direction) :
    DictExtends dict (checkWithDict dict word dir).2 := by
  cases word with
  | nil => exact dictExtends_refl dict
  | cons c rest =>
      simp only [checkWithDict]
      exact dictExtends_trans (dictGet_extends dict c)
        (candLoopS_extends dir.dy dir.dx (c :: rest) _ _)

end WordSearchSolver

namespace SimpleWordSearchSolver

theorem scanWord_isSome (graph : List (List Char)) (w : Nat)
    (hw : ∀ row ∈ graph, row.length = w) (dy dx : Int) :
    ∀ (letters : List Char) (y x : Int) (failed : Bool),
      (scanWord graph graph.length w dy dx letters y x failed).isSome = true := by
  intro letters
  induction letters with
  | nil => intro y x failed; rfl
  | cons ch rest ih =>
      intro y x failed
      simp only [scanWord]
      by_cases hoob : (graph.length : Int) ≤ y ∨ y < 0 ∨ (w : Int) ≤ x ∨ x < 0
      · rw [if_pos hoob]
        exact ih y x true
      · rw [if_neg hoob]
        by_cases hsp : ch = ' '
        · rw [if_pos hsp]
          exact ih y x failed
        · rw [if_neg hsp]
          push_neg at hoob
          obtain ⟨hy1, hy2, hx1, hx2⟩ := hoob
          have hcell : ∃ g, gridCell graph y.toNat x.toNat = some g := by
            cases hrow : graph.get? y.toNat with
            | none =>
                have hlen := List.get?_eq_none.mp hrow
                omega
            | some row =>
                have hrl : row.length = w := hw row (List.get?_mem hrow)
                cases hg : row.get? x.toNat with
                | none =>
                    have hlen := List.get?_eq_none.mp hg
                    omega
                | some g =>
                    refine ⟨g, ?_⟩
                    unfold gridCell
                    rw [hrow]
                    simpa using hg
          obtain ⟨g, hg⟩ := hcell
          rw [hg]
          dsimp only
          by_cases hgc : g = ch
          · rw [if_pos hgc]
            exact ih _ _ failed
          · rw [if_neg hgc]
            exact ih y x true

theorem dirLoop_isSome (graph : List (List Char)) (w : Nat)
    (hw : ∀ row ∈ graph, row.length = w) (word wordU : List Char) (y x : Nat) :
    ∀ (ds : List Direction) (m : WordSearchSolver.ResultMap),
      (dirLoop graph graph.length w word wordU y x m ds).isSome = true := by
  intro ds
  induction ds with
  | nil => intro m; rfl
  | cons d ds ih =>
      intro m
      simp only [dirLoop]
      have hs := scanWord_isSome graph w hw d.dy d.dx wordU (y : Int) (x : Int) false
      obtain ⟨b, hb⟩ := Option.isSome_iff_exists.mp hs
      rw [hb]
      cases b with
      | false => exact ih m
      | true => exact ih _

theorem colLoop_isSome (graph : List (List Char)) (w : Nat)
    (hw : ∀ row ∈ graph, row.length = w) (word wordU : List Char) (y : Nat) :
    ∀ (xs : List Nat) (m : WordSearchSolver.ResultMap),
      (colLoop graph graph.length w word wordU y m xs).isSome = true := by
  intro xs
  induction xs with
  | nil => intro m; rfl
  | cons x xs ih =>
      intro m
      simp only [colLoop]
      obtain ⟨m2, hm2⟩ := Option.isSome_iff_exists.mp
        (dirLoop_isSome graph w hw word wordU y x allDirections m)
      rw [hm2]
      exact ih m2

theorem rowLoop_isSome (graph : List (List Char)) (w : Nat)
    (hw : ∀ row ∈ graph, row.length = w) (word wordU : List Char) :
    ∀ (ys : List Nat) (m : WordSearchSolver.ResultMap),
      (rowLoop graph graph.length w word wordU m ys).isSome = true := by
  intro ys
  induction ys with
  | nil => intro m; rfl
  | cons y ys ih =>
      intro m
      simp only [rowLoop]
      obtain ⟨m2, hm2⟩ := Option.isSome_iff_exists.mp
        (colLoop_isSome graph w hw word wordU y (List.range w) m)
      rw [hm2]
      exact ih m2

theorem wordLoop_isSome (graph : List (List Char)) (w : Nat)
    (hw : ∀ row ∈ graph, row.length = w) :
    ∀ (ws : List (List Char)) (m : WordSearchSolver.ResultMap),
      (wordLoop graph graph.length w m ws).isSome = true := by
  intro ws
  induction ws with
  | nil => intro m; rfl
  | cons word ws ih =>
      intro m
      simp only [wordLoop]
      obtain ⟨m2, hm2⟩ := Option.isSome_iff_exists.mp
        (rowLoop_isSome graph w hw word (word.map Char.toUpper)
          (List.range graph.length) m)
      rw [hm2]
      exact ih _

theorem solve_puzzle_isSome (words graph : List (List Char))
    (hrect : isRect graph = true) : (solve_puzzle words graph).isSome = true := by
  cases graph with
  | nil => exact absurd hrect (by decide)
  | cons g0 rest =>
      have hw : ∀ row ∈ g0 :: rest, row.length = g0.length := by
        intro row hrow
        rcases List.mem_cons.mp hrow with h | h
        · rw [h]
        · have hall := List.all_eq_true.mp hrect row h
          exact beq_iff_eq.mp hall
      exact wordLoop_isSome (g0 :: rest) g0.length hw words []

end SimpleWordSearchSolver

/-- Claim C5, counterexample.  The indexed solver is not total on word
lists containing the empty word: `word[0]` raises `IndexError`, so
`solve_puzzle` has a failure outcome on the word list `[""]` even over
the well-formed grid `["A"]`. -/
theorem C5_counterexample :
    WordSearchSolver.solve_puzzle [[]] [['A']] = none := by decide

/-- Claim C5, amended.  Over any rectangular non-empty grid the naive
solver runs to completion on every word sequence (including empty and
all-space words); the indexed solver runs to completion provided every
word is non-empty. -/
theorem C5_amended (keys graph : List (List Char)) (hrect : isRect graph = true) :
    (SimpleWordSearchSolver.solve_puzzle keys graph).isSome = true ∧
    ((∀ w ∈ keys, w ≠ []) →
      (WordSearchSolver.solve_puzzle keys graph).isSome = true) := by
  constructor
  · exact SimpleWordSearchSolver.solve_puzzle_isSome keys graph hrect
  · intro hall
    obtain ⟨m, hm⟩ :=
      WordSearchSolver.solveWords_isSome (WordSearchSolver.coordsOf graph) keys [] hall
    show (WordSearchSolver.solveWords (WordSearchSolver.coordsOf graph) [] keys).isSome = true
    rw [hm]
    rfl

/-- Claim C5, witness at the grid `["A"]` with the all-space word
`" "`. -/
theorem C5_amended_witness :
    isRect [['A']] = true ∧
    (SimpleWordSearchSolver.solve_puzzle [[' ']] [['A']]).isSome = true ∧
    (WordSearchSolver.solve_puzzle [[' ']] [['A']]).isSome = true :=
  ⟨by decide, (C5_amended [[' ']] [['A']] (by decide)).1,
    (C5_amended [[' ']] [['A']] (by decide)).2 (by decide)⟩

/-- Claim C8, counterexample.  `check_for_word_in_direction` is not
free of side effects on the coordinates defaultdict: searching the
word `"B"` over the index built from the grid `["A"]` materialises an
empty entry under `'B'`, so the key set of the mapping changes. -/
theorem C8_counterexample :
    ((WordSearchSolver.checkWithDict
        (WordSearchSolver.build_dictionary_of_coordinates [['A']]) ['B']
        Direction.LR).2).map Prod.fst ≠
      (WordSearchSolver.build_dictionary_of_coordinates [['A']]).map Prod.fst := by
  decide

/-- Claim C8, amended.  The only mutation a call to
`check_for_word_in_direction` performs on the coordinates defaultdict
is materialising empty entries for looked-up characters that are
absent: every entry present before the call keeps exactly its value
list, and every entry present after the call either existed before or
has the empty list as value — so the mapping read as a total function
with default `[]` (and with it the grid contents it indexes) is
unchanged. -/
theorem C8_amended (dict : CoordDict) (word : List Char)
    (dir : Direction) (c : Char) (v : List (Int × Int)) :
    (assocFind dict c = some v →
      assocFind (WordSearchSolver.checkWithDict dict word dir).2 c = some v) ∧
    (assocFind (WordSearchSolver.checkWithDict dict word dir).2 c = some v →
      assocFind dict c = some v ∨ v = []) :=
  WordSearchSolver.checkWithDict_extends dict word dir c v

/-- Claim C8, witness: the pre-existing entry for `'A'` survives the
search for `"B"` unchanged. -/
theorem C8_amended_witness :
    assocFind (WordSearchSolver.build_dictionary_of_coordinates [['A']]) 'A' =
      some [(0, 0)] ∧
    assocFind ((WordSearchSolver.checkWithDict
        (WordSearchSolver.build_dictionary_of_coordinates [['A']]) ['B']
        Direction.LR).2) 'A' = some [(0, 0)] :=
  ⟨by decide,
    (C8_amended (WordSearchSolver.build_dictionary_of_coordinates [['A']]) ['B']
      Direction.LR 'A' [(0, 0)]).1 (by decide)⟩

section SanityChecks

example :
    WordSearchSolver.check_for_word_in_direction
      (WordSearchSolver.coordsOf [['A', 'A', 'A', 'O'],
                                  ['A', 'A', 'O', 'A'],
                                  ['A', 'O', 'A', 'A'],
                                  ['O', 'A', 'A', 'A']])
      ['A', 'A', 'O', 'A'] Direction.LR = some [(0, 1)] := by decide

example :
    WordSearchSolver.check_for_word_in_direction
      (WordSearchSolver.coordsOf [['A', 'A', 'A', 'O'],
                                  ['A', 'A', 'O', 'A'],
                                  ['A', 'O', 'A', 'A'],
                                  ['O', 'A', 'A', 'A']])
      ['O', 'O', 'O', 'O'] Direction.DDL = some [(3, 0)] := by decide

example :
    WordSearchSolver.solve_puzzle [['L', 'C', 'D']]
      [['X', 'X', 'X'], ['L', 'X', 'X'], ['C', 'X', 'X'], ['D', 'X', 'X']] =
    some [(['L', 'C', 'D'], [("D", [(0, 1)])])] := by decide

example :
    SimpleWordSearchSolver.solve_puzzle [['L', 'C', 'D']]
      [['X', 'X', 'X'], ['L', 'X', 'X'], ['C', 'X', 'X'], ['D', 'X', 'X']] =
    some [(['L', 'C', 'D'], [("D", [(0, 1)])])] := by decide

end SanityChecks

/-- Claim C1, code-bug evidence.  On word list `["AA"]` and grid
`["AA"]` the indexed solver records the word under both `LR` and `RL`,
while in the naive solver the `except KeyError` branch of the recording
step replaces the whole inner dictionary of the word when only the direction
key is missing, losing the earlier `LR` entry; the two result maps are
not equal, contradicting the claimed equivalence (which the program
itself asserts by comparing the two solution files). -/
theorem C1_result_maps_diverge :
    WordSearchSolver.solve_puzzle [['A', 'A']] [['A', 'A']] =
      some [(['A', 'A'], [("LR", [(0, 0)]), ("RL", [(1, 0)])])] ∧
    SimpleWordSearchSolver.solve_puzzle [['A', 'A']] [['A', 'A']] =
      some [(['A', 'A'], [("RL", [(1, 0)])])] ∧
    WordSearchSolver.solve_puzzle [['A', 'A']] [['A', 'A']] ≠
      SimpleWordSearchSolver.solve_puzzle [['A', 'A']] [['A', 'A']] := by
  refine ⟨by decide, by decide, by decide⟩

/-- Claim C2, counterexample.  The grid `["A"]` spells the word `"a"`
(case-insensitively) at cell `(0,0)` in direction `LR`, but the indexed
solver selects candidate starts from the index entry for the raw first
character `'a'`, which is absent from the index, so the returned result
map is empty and contains no entry at all for the word. -/
theorem C2_counterexample :
    spellsAtB [['A']] Direction.LR.dy Direction.LR.dx ['a'] 0 0 = true ∧
    WordSearchSolver.solve_puzzle [['a']] [['A']] = some [] := by
  refine ⟨by decide, by decide⟩

/-- Claim C2, amended.  Completeness of the indexed solve for words
whose first character is a non-space character fixed by uppercasing,
in a key list with no empty word: every cell from which the reading
discipline spells the word is reported (in `(column,row)` order) under
the word and direction in the returned result map. -/
theorem C2_amended (grid keys : List (List Char)) (c : Char) (rest : List Char)
    (d : Direction) (y x : Int)
    (hall : ∀ w' ∈ keys, w' ≠ [])
    (hmem : (c :: rest) ∈ keys)
    (hc : c ≠ ' ') (hup : c.toUpper = c)
    (hsp : spellsAtB grid d.dy d.dx (c :: rest) y x = true) :
    ∃ m, WordSearchSolver.solve_puzzle keys grid = some m ∧
      ∃ rs, WordSearchSolver.entryAt m (c :: rest) d.name = some rs ∧ (x, y) ∈ rs := by
  have hmemD := WordSearchSolver.mem_checkD_of_spells grid c rest d y x hc hup hsp
  have hne := List.ne_nil_of_mem hmemD
  obtain ⟨m, hm, hent⟩ :=
    WordSearchSolver.solve_puzzle_found grid keys (c :: rest) d hall hmem hne
  exact ⟨m, hm, WordSearchSolver.checkD (WordSearchSolver.coordsOf grid) (c :: rest) d,
    hent, hmemD⟩

/-- Claim C2, witness for the amended theorem at the grid `["AB"]`,
word `"AB"`, direction `LR`, cell `(0,0)`. -/
theorem C2_amended_witness :
    spellsAtB [['A', 'B']] Direction.LR.dy Direction.LR.dx ['A', 'B'] 0 0 = true ∧
    ∃ m, WordSearchSolver.solve_puzzle [['A', 'B']] [['A', 'B']] = some m ∧
      ∃ rs, WordSearchSolver.entryAt m ['A', 'B'] Direction.LR.name = some rs ∧
        ((0 : Int), (0 : Int)) ∈ rs :=
  ⟨by decide,
    C2_amended [['A', 'B']] [['A', 'B']] 'A' ['B'] Direction.LR 0 0
      (by decide) (by decide) (by decide) (by decide) (by decide)⟩

/-- Claim C3, code-bug evidence.  A word absent from the grid is not a
key of the result map of the indexed solver at all (`found_words` is a
`defaultdict(dict)` whose word keys are only materialised when a
direction is recorded), while the naive solver explicitly inserts the
empty inner mapping; the test file of the repository expects the unfound word
Wireless to be present with an empty mapping. -/
theorem C3_unfound_word_key_missing :
    WordSearchSolver.solve_puzzle [['B']] [['A']] = some [] ∧
    SimpleWordSearchSolver.solve_puzzle [['B']] [['A']] = some [(['B'], [])] := by
  refine ⟨by decide, by decide⟩

/-- Claim C4, counterexample.  Over the uppercase grid `["L"]`,
searching for `"l"` returns the empty list (the candidate starts are
taken from the index entry for the raw character `'l'`), while
searching for its uppercased form `"L"` finds the occurrence, so the
two searches are not equal. -/
theorem C4_counterexample :
    WordSearchSolver.check_for_word_in_direction (WordSearchSolver.coordsOf [['L']])
        ['l'] Direction.LR ≠
      WordSearchSolver.check_for_word_in_direction (WordSearchSolver.coordsOf [['L']])
        (['l'].map Char.toUpper) Direction.LR := by
  decide

/-- Claim C4, amended.  Searching for a word and for its uppercased
form agree whenever the first character of the word is already fixed by
uppercasing: every later character is uppercased before the index
lookup, and only the candidate-start selection uses the raw first
character. -/
theorem C4_amended (grid : List (List Char)) (w : List Char) (d : Direction)
    (_hgrid : ∀ row ∈ grid, ∀ ch ∈ row, ch.toUpper = ch)
    (hfirst : ∀ c, w.head? = some c → c.toUpper = c) :
    WordSearchSolver.check_for_word_in_direction (WordSearchSolver.coordsOf grid) w d =
      WordSearchSolver.check_for_word_in_direction (WordSearchSolver.coordsOf grid)
        (w.map Char.toUpper) d := by
  cases w with
  | nil => rfl
  | cons c rest =>
      have hup : c.toUpper = c := hfirst c rfl
      show some (WordSearchSolver.checkD (WordSearchSolver.coordsOf grid) (c :: rest) d) =
        some (WordSearchSolver.checkD (WordSearchSolver.coordsOf grid)
          ((c :: rest).map Char.toUpper) d)
      rw [WordSearchSolver.checkD_map_toUpper (WordSearchSolver.coordsOf grid) c rest d hup]

/-- Claim C4, witness for the amended theorem at the uppercase grid
`["L"]` and the word `"L"`. -/
theorem C4_amended_witness :
    (∀ row ∈ [['L']], ∀ ch ∈ row, Char.toUpper ch = ch) ∧
    WordSearchSolver.check_for_word_in_direction (WordSearchSolver.coordsOf [['L']])
        ['L'] Direction.LR =
      WordSearchSolver.check_for_word_in_direction (WordSearchSolver.coordsOf [['L']])
        (['L'].map Char.toUpper) Direction.LR :=
  ⟨by decide,
    C4_amended [['L']] ['L'] Direction.LR (by decide)
      (fun c hc => by
        have h := Option.some.inj hc
        rw [← h]
        decide)⟩

/-- Claim C6, confirmed.  Round-trip soundness: every start coordinate
`(x, y)` returned by `check_for_word_in_direction` over the built index
spells the word from cell `(y, x)` under the reading discipline of the claims
(spaces skipped without advancing, each non-space character matched
case-insensitively before stepping by the direction vector). -/
theorem C6_round_trip (grid : List (List Char)) (word : List Char) (d : Direction)
    (rs : List (Int × Int)) (x y : Int)
    (hcheck : WordSearchSolver.check_for_word_in_direction
      (WordSearchSolver.coordsOf grid) word d = some rs)
    (hmem : (x, y) ∈ rs) :
    spellsAtB grid d.dy d.dx word y x = true := by
  cases word with
  | nil => exact Option.noConfusion hcheck
  | cons c rest =>
      have hrs : WordSearchSolver.checkD (WordSearchSolver.coordsOf grid) (c :: rest) d = rs :=
        Option.some.inj hcheck
      rw [← hrs] at hmem
      unfold WordSearchSolver.checkD at hmem
      obtain ⟨p, hp, hswap⟩ := List.mem_map.mp hmem
      obtain ⟨hcand, hmatch⟩ := List.mem_filter.mp hp
      obtain ⟨p1, p2⟩ := p
      have h1 : p2 = x := congrArg Prod.fst hswap
      have h2 : p1 = y := congrArg Prod.snd hswap
      subst h1
      subst h2
      rw [← WordSearchSolver.wordMatch_eq_spellsAtB]
      exact hmatch

/-- Claim C6, witness at the grid `["AB"]`, word `"AB"`, direction
`LR`, returned start `(0,0)`. -/
theorem C6_round_trip_witness :
    WordSearchSolver.check_for_word_in_direction (WordSearchSolver.coordsOf [['A', 'B']])
        ['A', 'B'] Direction.LR = some [(0, 0)] ∧
    spellsAtB [['A', 'B']] Direction.LR.dy Direction.LR.dx ['A', 'B'] 0 0 = true :=
  ⟨by decide,
    C6_round_trip [['A', 'B']] ['A', 'B'] Direction.LR [(0, 0)] 0 0 (by decide) (by decide)⟩

/-- Claim C7, confirmed.  Every coordinate stored in the built index
lies inside the grid (non-negative, row exists, column within that
row), and a coordinate outside the extent of the grid is never a member of
any index entry, so a drifted walk fails the membership test exactly
like a letter mismatch, and no grid access happens at all. -/
theorem C7_index_bounds (grid : List (List Char)) (c : Char) (y x : Int) :
    ((y, x) ∈ WordSearchSolver.coordsOf grid c →
      0 ≤ y ∧ 0 ≤ x ∧ ∃ row, grid.get? y.toNat = some row ∧ x.toNat < row.length) ∧
    (cellAt grid y x = none → (y, x) ∉ WordSearchSolver.coordsOf grid c) := by
  constructor
  · intro hmem
    have hcell := (WordSearchSolver.mem_coordsOf grid c y x).mp hmem
    unfold cellAt at hcell
    by_cases hpos : (0 : Int) ≤ y ∧ (0 : Int) ≤ x
    · rw [if_pos hpos] at hcell
      cases hrow : grid.get? y.toNat with
      | none => rw [hrow] at hcell; exact Option.noConfusion hcell
      | some row =>
          rw [hrow] at hcell
          simp only [Option.some_bind] at hcell
          obtain ⟨hlt, _⟩ := List.get?_eq_some.mp hcell
          exact ⟨hpos.1, hpos.2, row, rfl, hlt⟩
    · rw [if_neg hpos] at hcell
      exact Option.noConfusion hcell
  · intro hnone hmem
    have hcell := (WordSearchSolver.mem_coordsOf grid c y x).mp hmem
    rw [hnone] at hcell
    exact Option.noConfusion hcell

/-- Claim C7, witness at the grid `["A"]` and its only cell. -/
theorem C7_index_bounds_witness :
    ((0 : Int), (0 : Int)) ∈ WordSearchSolver.coordsOf [['A']] 'A' ∧
    (0 ≤ (0 : Int) ∧ 0 ≤ (0 : Int) ∧
      ∃ row, [['A']].get? (0 : Int).toNat = some row ∧ (0 : Int).toNat < row.length) :=
  ⟨by decide, (C7_index_bounds [['A']] 'A' 0 0).1 (by decide)⟩

/-- Claim C9, counterexample.  In the naive solver the out-of-bounds
test precedes the space skip, so the word `"AB "` (trailing space) is
not found in the grid `["AB"]` even though its space-stripped form
`"AB"` is found at `(0,0)` going `LR`: the two searches do not return
the same lists of start coordinates. -/
theorem C9_counterexample :
    SimpleWordSearchSolver.solve_puzzle [['A', 'B', ' ']] [['A', 'B']] =
      some [(['A', 'B', ' '], [])] ∧
    SimpleWordSearchSolver.solve_puzzle
        [['A', 'B', ' '].filter fun ch => decide (ch ≠ ' ')] [['A', 'B']] =
      some [(['A', 'B'], [("LR", [(0, 0)])])] := by
  refine ⟨by decide, by decide⟩

/-- Claim C9, amended.  For the indexed `check_for_word_in_direction`,
searching a word whose first character is not a space returns exactly
the same list as searching the word with all spaces removed: a space is
a pure positional skip that neither advances the running coordinate nor
touches the index.  (The naive solver violates this when the running
coordinate is outside the grid at a space position.) -/
theorem C9_amended (grid : List (List Char)) (c : Char) (rest : List Char)
    (d : Direction) (hc : c ≠ ' ') :
    WordSearchSolver.check_for_word_in_direction (WordSearchSolver.coordsOf grid)
        (c :: rest) d =
      WordSearchSolver.check_for_word_in_direction (WordSearchSolver.coordsOf grid)
        ((c :: rest).filter fun ch => decide (ch ≠ ' ')) d := by
  have hkeep : (c :: rest).filter (fun ch => decide (ch ≠ ' ')) =
      c :: rest.filter (fun ch => decide (ch ≠ ' ')) :=
    List.filter_cons_of_pos (decide_eq_true hc)
  rw [hkeep]
  show some (WordSearchSolver.checkD (WordSearchSolver.coordsOf grid) (c :: rest) d) =
    some (WordSearchSolver.checkD (WordSearchSolver.coordsOf grid)
      (c :: rest.filter fun ch => decide (ch ≠ ' ')) d)
  congr 1
  show ((WordSearchSolver.coordsOf grid c).filter fun p =>
      WordSearchSolver.wordMatch (WordSearchSolver.coordsOf grid) d.dy d.dx
        (c :: rest) p.1 p.2).map Prod.swap =
    ((WordSearchSolver.coordsOf grid c).filter fun p =>
      WordSearchSolver.wordMatch (WordSearchSolver.coordsOf grid) d.dy d.dx
        (c :: rest.filter fun ch => decide (ch ≠ ' ')) p.1 p.2).map Prod.swap
  have hpred : (fun p : Int × Int =>
      WordSearchSolver.wordMatch (WordSearchSolver.coordsOf grid) d.dy d.dx
        (c :: rest.filter fun ch => decide (ch ≠ ' ')) p.1 p.2) =
      fun p : Int × Int =>
        WordSearchSolver.wordMatch (WordSearchSolver.coordsOf grid) d.dy d.dx
          (c :: rest) p.1 p.2 :=
    funext fun p => by
      rw [← hkeep]
      exact WordSearchSolver.wordMatch_filter_space (WordSearchSolver.coordsOf grid)
        d.dy d.dx (c :: rest) p.1 p.2
  rw [hpred]

/-- Claim C9, witness for the amended theorem at the grid `["AB"]` and
the word `"AB "` (trailing space), direction `LR`. -/
theorem C9_amended_witness :
    ('A' ≠ ' ') ∧
    WordSearchSolver.check_for_word_in_direction (WordSearchSolver.coordsOf [['A', 'B']])
        ['A', 'B', ' '] Direction.LR =
      WordSearchSolver.check_for_word_in_direction (WordSearchSolver.coordsOf [['A', 'B']])
        (['A', 'B', ' '].filter fun ch => decide (ch ≠ ' ')) Direction.LR :=
  ⟨by decide, C9_amended [['A', 'B']] 'A' ['B', ' '] Direction.LR (by decide)⟩

/-- Claim C10, confirmed.  For a single-character word consisting of an
uppercase non-space character, `check_for_word_in_direction` returns,
for every direction alike, the full index entry for that character in
its row-major emission order, converted to `(column,row)` pairs. -/
theorem C10_single_letter (grid : List (List Char)) (c : Char) (d : Direction)
    (hup : c.toUpper = c) (hsp : c ≠ ' ') :
    WordSearchSolver.check_for_word_in_direction (WordSearchSolver.coordsOf grid) [c] d =
      some ((WordSearchSolver.coordsOf grid c).map Prod.swap) := by
  have hfilter : ((WordSearchSolver.coordsOf grid c).filter fun p =>
      WordSearchSolver.wordMatch (WordSearchSolver.coordsOf grid) d.dy d.dx [c] p.1 p.2) =
      WordSearchSolver.coordsOf grid c := by
    rw [List.filter_eq_self]
    intro p hp
    show WordSearchSolver.wordMatch (WordSearchSolver.coordsOf grid) d.dy d.dx [c] p.1 p.2 = true
    simp only [WordSearchSolver.wordMatch]
    rw [if_neg hsp]
    have hpp : (p.1, p.2) ∈ WordSearchSolver.coordsOf grid c.toUpper := by
      rw [hup, Prod.mk.eta]
      exact hp
    rw [if_pos hpp]
  show some (WordSearchSolver.checkD (WordSearchSolver.coordsOf grid) [c] d) = _
  congr 1
  show ((WordSearchSolver.coordsOf grid c).filter fun p =>
      WordSearchSolver.wordMatch (WordSearchSolver.coordsOf grid) d.dy d.dx [c] p.1 p.2).map
        Prod.swap = (WordSearchSolver.coordsOf grid c).map Prod.swap
  rw [hfilter]

/-- Claim C10, witness at a grid with two occurrences of `'A'` and the
diagonal direction `DUL`. -/
theorem C10_single_letter_witness :
    (Char.toUpper 'A' = 'A' ∧ 'A' ≠ ' ') ∧
    WordSearchSolver.check_for_word_in_direction
        (WordSearchSolver.coordsOf [['A', 'B'], ['C', 'A']]) ['A'] Direction.DUL =
      some ((WordSearchSolver.coordsOf [['A', 'B'], ['C', 'A']] 'A').map Prod.swap) :=
  ⟨⟨by decide, by decide⟩,
    C10_single_letter [['A', 'B'], ['C', 'A']] 'A' Direction.DUL (by decide) (by decide)⟩
